import Mathlib

/-!
Shallow embedding of `Performance.h` from mgiesen/Cpp-Performance-Monitor.

The C++ class `Performance` owns a `std::deque<process>` member; here the
deque is modelled as a `List process` threaded explicitly through every
member function.  `std::chrono::high_resolution_clock::time_point` values
are modelled as integers counting nanoseconds (the clock's native tick);
each function that calls `now()` in the source takes the current instant
as an explicit `now : Int` argument.  Machine `int` values are modelled as
unbounded `Int` (no claim concerns overflow of 32-bit counters).
-/

namespace CppPerformanceMonitor

/-- Models `static const int UNINITIALIZED = -1`. -/
def UNINITIALIZED : Int := -1

/-- Models `enum struct resolution`; `toInt` gives the enumerator values. -/
inductive resolution
  | seconds
  | milliseconds
  | microseconds
  | nanoseconds
deriving DecidableEq, Repr

/-- The underlying integer of each enumerator (`seconds = 1`, ..., `nanoseconds = 4`). -/
def resolution.toInt : resolution → Int
  | .seconds => 1
  | .milliseconds => 2
  | .microseconds => 3
  | .nanoseconds => 4

/-- Inverse of `resolution.toInt`: models `static_cast<resolution>(n)` followed by
a `switch` over the four enumerators; integers outside 1..4 match no `case`. -/
def resolutionOfInt (n : Int) : Option resolution :=
  if n = 1 then some resolution.seconds
  else if n = 2 then some resolution.milliseconds
  else if n = 3 then some resolution.microseconds
  else if n = 4 then some resolution.nanoseconds
  else none

/-- Models `struct process`.  `start_time` is the captured monotonic instant in
nanoseconds (a 64-bit tick count, whose own overflow horizon of centuries is
unreachable and not modelled); `time` and `resolution` carry the `-1`
sentinel until assigned.  `time` is the 32-bit `int` member: the one place
the program narrows a wider value into it (the duration count stored by
`stop`) applies the two's-complement reduction `wrap32`. -/
structure process where
  name : String
  resolution : Int
  time : Int
  start_time : Int
deriving DecidableEq, Repr

/-- Two's-complement narrowing of an integer into the 32-bit `int` range
`[-2^31, 2^31)`: reduction modulo `2^32`.  This models the conversion at
`processes.at(process_id).time = duration_cast<...>(...).count()`, where the
64-bit duration count is assigned to the `int time` member (modular since
C++20, and the behavior of every mainstream implementation before). -/
def wrap32 (v : Int) : Int :=
  (v + 2147483648) % 4294967296 - 2147483648

/-- Models `std::chrono::duration_cast<target>(d)` applied to a nanosecond
duration `d`: integer division of the tick count, truncating toward zero
(`Int.tdiv`), as the C++ duration cast does. -/
def durationCast (res : resolution) (d : Int) : Int :=
  match res with
  | .seconds => d.tdiv 1000000000
  | .milliseconds => d.tdiv 1000000
  | .microseconds => d.tdiv 1000
  | .nanoseconds => d

/-- Result of `Performance::stop`: `success` models `return EXIT_SUCCESS`;
`invalidHandle` models the thrown
`std::runtime_error("Error: Invalid Performance Operation")`, the single
error kind of the design. -/
inductive StopResult
  | success
  | invalidHandle
deriving DecidableEq, Repr

namespace Performance

/-- Models `Performance::start`: records the position (`processes.size()`),
appends a fresh `process` whose `start_time` is the instant captured by the
default member initializer, and returns the position. -/
def start (st : List process) (now : Int) (process_name : String)
    (res : resolution) : List process × Int :=
  let step_position : Int := (st.length : Int)
  let this_step : process :=
    { name := process_name
      resolution := res.toInt
      time := UNINITIALIZED
      start_time := now }
  (st ++ [this_step], step_position)

end Performance

/-- The `time` value the `switch` of `Performance::stop` stores for the
record at index `i` when stopped at instant `now`: the duration cast of
`end_time - start_time` to the record's resolution, narrowed into the
32-bit `int time` member by the assignment.  Integers outside 1..4 match no
`case` of the `switch`, so `time` keeps its previous value. -/
def stopTime (st : List process) (now : Int) (i : Nat) (h : i < st.length) : Int :=
  match resolutionOfInt (st.get ⟨i, h⟩).resolution with
  | some r => wrap32 (durationCast r (now - (st.get ⟨i, h⟩).start_time))
  | none => (st.get ⟨i, h⟩).time

namespace Performance

/-- Models `Performance::stop`.  `processes.at(process_id)` throws (caught and
re-thrown as the invalid-operation error) exactly when the `int` handle,
converted to the unsigned `size_type`, is out of range, i.e. when the handle
is negative or not below the record count.  In range, the `switch` stores
`stopTime` into the record's `time`, and the call succeeds iff the stored
`time` exceeds `UNINITIALIZED`.  The deque is a class member, so the mutation
persists even when the error is thrown afterward; hence the post-state is
returned on every path. -/
def stop (st : List process) (now : Int) (process_id : Int) :
    List process × StopResult :=
  if h : 0 ≤ process_id ∧ process_id.toNat < st.length then
    let newTime := stopTime st now process_id.toNat h.2
    let st' := st.set process_id.toNat
      { st.get ⟨process_id.toNat, h.2⟩ with time := newTime }
    if UNINITIALIZED < newTime then (st', StopResult.success)
    else (st', StopResult.invalidHandle)
  else (st, StopResult.invalidHandle)

/-- The digit character for `d < 10`. -/
def digitChar (d : Nat) : Char := Char.ofNat (48 + d)

/-- Decimal digits of `n`, least significant first. -/
def natDigitsRev (n : Nat) : List Char :=
  if h : n < 10 then [digitChar n]
  else digitChar (n % 10) :: natDigitsRev (n / 10)
decreasing_by exact Nat.div_lt_self (by omega) (by omega)

/-- Inserts the thousands separator before every third digit (digits listed
least significant first, `k` digits already emitted). -/
def groupRev (k : Nat) : List Char → List Char
  | [] => []
  | c :: cs =>
    if k % 3 = 0 ∧ k ≠ 0 then ',' :: c :: groupRev (k + 1) cs
    else c :: groupRev (k + 1) cs

/-- Models `Performance::format_integer_thousand_separator`: prints `value` in
decimal with grouped thousands.  The C++ code imbues `std::locale("")`, whose
separator is host-dependent; the common comma grouping is used here, and no
claim depends on the separator character. -/
def format_integer_thousand_separator (value : Int) : String :=
  let digits := (groupRev 0 (natDigitsRev value.natAbs)).reverse
  if value < 0 then String.mk ('-' :: digits) else String.mk digits

/-- The separator literal of `Performance::show_results`. -/
def table_seperator : String :=
  "---------------------------------------------------------------------------"

/-- Models `std::setw(w)` followed by a string `s`: pads `s` on the left with
spaces up to width `w` (no effect when `s` is already at least that wide). -/
def padLeft (w : Nat) (s : String) : String :=
  String.mk (List.replicate (w - s.length) ' ') ++ s

/-- The unit suffix chosen by the `switch` in `Performance::show_results`. -/
def suffix_of (resolution_value : Int) : String :=
  if resolution_value = 1 then "s"
  else if resolution_value = 2 then "ms"
  else if resolution_value = 3 then "microseconds"
  else if resolution_value = 4 then "ns"
  else ""

/-- The runtime column text of one record: the `STILL RUNNING` placeholder
while `time` holds the `-1` sentinel, otherwise the formatted integer. -/
def runtime_of (step : process) : String :=
  if step.time = -1 then "STILL RUNNING"
  else format_integer_thousand_separator step.time

/-- One per-record line of the results table: the name, then the runtime and
suffix right-aligned via `setw(table_seperator.length() - name.length())`.
When the record is still running the suffix is reset to the empty string. -/
def recordLine (step : process) : String :=
  let suffix_string := if step.time = -1 then "" else suffix_of step.resolution
  let runtime_string := runtime_of step ++ " " ++ suffix_string
  step.name ++ padLeft (table_seperator.length - step.name.length) runtime_string ++ "\n"

/-- The table header written by `Performance::show_results`: blank line,
separator, the title right-aligned to half the separator width plus half the
title width, separator, blank line. -/
def show_results_header (table_title : String) : String :=
  "\n" ++ table_seperator ++ "\n"
    ++ padLeft (table_seperator.length / 2 + table_title.length / 2) table_title ++ "\n"
    ++ table_seperator ++ "\n" ++ "\n"

/-- The table footer: blank line, separator, blank line. -/
def show_results_footer : String :=
  "\n" ++ table_seperator ++ "\n" ++ "\n"

/-- Models `Performance::show_results` as the text written to `std::cout`.
The loop `for (auto step : processes)` copies each record and only reads it,
so the function is a pure map from the registry state to the output text. -/
def show_results (st : List process) (table_title : String) : String :=
  show_results_header table_title
    ++ (if st.length = 0 then "\t" ++ "No Events Tracked" ++ "\n"
        else String.join (st.map recordLine))
    ++ show_results_footer

/-- `show_results` as a state transformer: the member function leaves the
`processes` member untouched and returns the console text. -/
def report (st : List process) (table_title : String) : List process × String :=
  (st, show_results st table_title)

/-- Models `Performance::reset_results`: `processes.clear()`. -/
def reset_results (_st : List process) : List process := []

end Performance

/-- One call on a `Performance` object, with the instant the monotonic clock
would return during the call where the source reads the clock. -/
inductive Op
  | startOp (now : Int) (process_name : String) (res : resolution)
  | stopOp (now : Int) (process_id : Int)
  | reportOp (table_title : String)
  | resetOp
deriving DecidableEq, Repr

/-- The registry state after one call. -/
def runOp (st : List process) : Op → List process
  | .startOp now name res => (Performance.start st now name res).1
  | .stopOp now pid => (Performance.stop st now pid).1
  | .reportOp title => (Performance.report st title).1
  | .resetOp => Performance.reset_results st

/-- The registry state after a sequence of calls. -/
def runOps (st : List process) : List Op → List process
  | [] => st
  | op :: ops => runOps (runOp st op) ops

/-- Whether `op`, executed in state `st`, is a `stop` on handle `H` that
returns success. -/
def isSuccessfulStopOn (st : List process) (H : Nat) : Op → Bool
  | .stopOp now pid => pid == (H : Int) && (Performance.stop st now pid).2 == StopResult.success
  | _ => false

/-- Whether some call of the sequence is a successful `stop` on handle `H`. -/
def stopsOn (st : List process) (H : Nat) : List Op → Bool
  | [] => false
  | op :: ops => isSuccessfulStopOn st H op || stopsOn (runOp st op) H ops

/-- The clock instant a call observes, when it observes one. -/
def opNow : Op → Option Int
  | .startOp now _ _ => some now
  | .stopOp now _ => some now
  | _ => none

/-- The clock is monotone along the sequence and never below `m`: each
observed instant is at least the previous one (at least `m` for the first). -/
def nowsLB (m : Int) : List Op → Bool
  | [] => true
  | op :: ops =>
    match opNow op with
    | some t => decide (m ≤ t) && nowsLB t ops
    | none => nowsLB m ops

/-- The sequence contains no `reset` call. -/
def noReset : List Op → Bool
  | [] => true
  | Op.resetOp :: _ => false
  | _ :: ops => noReset ops

/-- Every record's captured start instant is at most `m` (the clock never ran
backward before state `st` was reached). -/
def clockOK (m : Int) (st : List process) : Prop :=
  ∀ p ∈ st, p.start_time ≤ m

instance (m : Int) (st : List process) : Decidable (clockOK m st) :=
  inferInstanceAs (Decidable (∀ p ∈ st, p.start_time ≤ m))

/-- Every record's captured start instant is at least `b` (the instant the
registry's current era began). -/
def clockLB (b : Int) (st : List process) : Prop :=
  ∀ p ∈ st, b ≤ p.start_time

instance (b : Int) (st : List process) : Decidable (clockLB b st) :=
  inferInstanceAs (Decidable (∀ p ∈ st, b ≤ p.start_time))

/-- Every clock instant the sequence observes is at most `M`. -/
def nowsUB (M : Int) : List Op → Bool
  | [] => true
  | op :: ops =>
    match opNow op with
    | some t => decide (t ≤ M) && nowsUB M ops
    | none => nowsUB M ops

/-- The handles returned by a sequence of `start` calls (each triple holds the
clock instant, the name and the resolution of one call). -/
def runStarts (st : List process) : List (Int × String × resolution) → List Int
  | [] => []
  | c :: rest =>
    let r := Performance.start st c.1 c.2.1 c.2.2
    r.2 :: runStarts r.1 rest

/-- `stop` on an out-of-range handle returns the registry unchanged together
with the invalid-handle error. -/
theorem stop_of_not_valid (st : List process) (now pid : Int)
    (h : ¬(0 ≤ pid ∧ pid.toNat < st.length)) :
    Performance.stop st now pid = (st, StopResult.invalidHandle) := by
  unfold Performance.stop
  rw [dif_neg h]

/-- `stop` on an in-range handle stores `stopTime` into the record and
succeeds exactly when that value exceeds the sentinel. -/
theorem stop_of_valid (st : List process) (now pid : Int)
    (h0 : 0 ≤ pid) (hlt : pid.toNat < st.length) :
    Performance.stop st now pid =
      (st.set pid.toNat
        { st.get ⟨pid.toNat, hlt⟩ with time := stopTime st now pid.toNat hlt },
       if UNINITIALIZED < stopTime st now pid.toNat hlt then StopResult.success
       else StopResult.invalidHandle) := by
  unfold Performance.stop
  rw [dif_pos ⟨h0, hlt⟩]
  by_cases hc : UNINITIALIZED < stopTime st now pid.toNat hlt
  · rw [if_pos hc, if_pos hc]
  · rw [if_neg hc, if_neg hc]

/-- `stop` never changes the number of records. -/
theorem stop_length (st : List process) (now pid : Int) :
    ((Performance.stop st now pid).1).length = st.length := by
  by_cases h : 0 ≤ pid ∧ pid.toNat < st.length
  · rw [stop_of_valid st now pid h.1 h.2]
    exact List.length_set ..
  · rw [stop_of_not_valid st now pid h]

/-- The handle list of a sequence of `start` calls has one entry per call. -/
theorem runStarts_length (calls : List (Int × String × resolution)) :
    ∀ st : List process, (runStarts st calls).length = calls.length := by
  induction calls with
  | nil => intro st; rfl
  | cons c rest ih => intro st; simp [runStarts, ih]

/-- The `i`-th `start` call of a sequence returns the registry size at the
start of the sequence plus `i`. -/
theorem runStarts_getElem (calls : List (Int × String × resolution)) :
    ∀ (st : List process) (i : Nat), i < calls.length →
      (runStarts st calls)[i]? = some ((st.length : Int) + i) := by
  induction calls with
  | nil => intro st i hi; exact absurd hi (by simp)
  | cons c rest ih =>
    intro st i hi
    match i with
    | 0 => simp [runStarts, Performance.start]
    | Nat.succ n =>
      have hn : n < rest.length := by simpa using hi
      have := ih ((Performance.start st c.1 c.2.1 c.2.2).1) n hn
      simp only [runStarts, List.getElem?_cons_succ]
      rw [this]
      congr 1
      simp [Performance.start]
      omega

/-- C1: in a sequence of `start` calls on a fresh registry (no intervening
reset), the `i`-th call (0-indexed) returns handle `i`; handles are
non-negative and strictly increasing across the calls. -/
theorem C1_start_returns_position (calls : List (Int × String × resolution))
    (i j : Nat) (hi : i < calls.length) (hj : j < calls.length) :
    (runStarts [] calls)[i]? = some (i : Int) ∧
    (∀ k : Int, (runStarts [] calls)[i]? = some k → 0 ≤ k) ∧
    (i < j → ∃ ki kj : Int, (runStarts [] calls)[i]? = some ki ∧
      (runStarts [] calls)[j]? = some kj ∧ ki < kj) := by
  have hgi := runStarts_getElem calls [] i hi
  have hgj := runStarts_getElem calls [] j hj
  simp only [List.length_nil, Nat.cast_zero, Int.zero_add] at hgi hgj
  refine ⟨hgi, ?_, ?_⟩
  · intro k hk
    rw [hgi] at hk
    cases hk
    exact Int.natCast_nonneg i
  · intro hij
    exact ⟨i, j, hgi, hgj, by exact_mod_cast hij⟩

/-- C1 witness: a concrete three-call sequence. -/
theorem C1_start_returns_position_witness :
    (runStarts []
      [(0, "load", resolution.milliseconds), (1, "parse", resolution.microseconds),
       (2, "save", resolution.seconds)])[1]? = some (1 : Int) :=
  (C1_start_returns_position
    [(0, "load", resolution.milliseconds), (1, "parse", resolution.microseconds),
     (2, "save", resolution.seconds)] 1 2 (by decide) (by decide)).1

/-- C2: `stop` fails with the invalid-handle error on every out-of-range
handle (negative, or at least the record count), in particular on `-1`;
it never succeeds there. -/
theorem C2_stop_out_of_range_fails (st : List process) (now H : Int)
    (h : H < 0 ∨ (st.length : Int) ≤ H) :
    (Performance.stop st now H).2 = StopResult.invalidHandle ∧
    (Performance.stop st now (-1)).2 = StopResult.invalidHandle := by
  constructor
  · rw [stop_of_not_valid st now H (by omega)]
  · rw [stop_of_not_valid st now (-1) (by omega)]

/-- C2 witness: a one-record registry, handle `1` (equal to the count). -/
theorem C2_stop_out_of_range_fails_witness :
    (Performance.stop (Performance.start [] 0 "load" resolution.milliseconds).1 5 1).2
        = StopResult.invalidHandle ∧
    (Performance.stop (Performance.start [] 0 "load" resolution.milliseconds).1 5 (-1)).2
        = StopResult.invalidHandle :=
  C2_stop_out_of_range_fails
    (Performance.start [] 0 "load" resolution.milliseconds).1 5 1 (by decide)

/-- C3 counterexample: one record started at instant 0 with nanosecond
resolution, stopped successfully at instant 5 (elapsed set to 5) and stopped
successfully again at instant 7 (elapsed overwritten to 7): the elapsed field
changes twice, and changes again after having been set. -/
theorem C3_counterexample_restop_overwrites :
    (Performance.stop (Performance.start [] 0 "p" resolution.nanoseconds).1 5 0).2
        = StopResult.success ∧
    (Performance.stop
        (Performance.stop (Performance.start [] 0 "p" resolution.nanoseconds).1 5 0).1
        7 0).2 = StopResult.success ∧
    (((Performance.stop (Performance.start [] 0 "p" resolution.nanoseconds).1 5 0).1)[0]?).map
        process.time = some 5 ∧
    (((Performance.stop
        (Performance.stop (Performance.start [] 0 "p" resolution.nanoseconds).1 5 0).1
        7 0).1)[0]?).map process.time = some 7 := by
  decide

/-- C4 counterexample: a record started at instant 10; `stop` at instant 3
(clock ran backward) computes elapsed `-7`, stores it into the record, and
only then fails — the failing call leaves the registry mutated. -/
theorem C4_counterexample_failing_stop_mutates :
    (Performance.stop (Performance.start [] 10 "p" resolution.nanoseconds).1 3 0).2
        = StopResult.invalidHandle ∧
    (Performance.stop (Performance.start [] 10 "p" resolution.nanoseconds).1 3 0).1
        ≠ (Performance.start [] 10 "p" resolution.nanoseconds).1 ∧
    (((Performance.stop (Performance.start [] 10 "p" resolution.nanoseconds).1 3 0).1)[0]?).map
        process.time = some (-7) := by
  decide

/-- C7: after `reset_results` the registry holds zero records, `show_results`
emits exactly the header, the placeholder line `"\tNo Events Tracked\n"` and
the footer (no per-record rows), and `stop` fails with the invalid-handle
error on every handle. -/
theorem C7_reset_clears (st : List process) (title : String) :
    (Performance.reset_results st).length = 0 ∧
    Performance.show_results (Performance.reset_results st) title =
      Performance.show_results_header title
        ++ ("\t" ++ "No Events Tracked" ++ "\n")
        ++ Performance.show_results_footer ∧
    ∀ H now : Int,
      (Performance.stop (Performance.reset_results st) now H).2
        = StopResult.invalidHandle := by
  refine ⟨rfl, rfl, ?_⟩
  intro H now
  rw [stop_of_not_valid (Performance.reset_results st) now H (by
    simp [Performance.reset_results])]

/-- C8: `report` returns the registry unchanged (same record count, every
record identical), and two consecutive `report` calls with the same title on
the unchanged registry produce the same output text. -/
theorem C8_report_pure (st : List process) (title : String) :
    (Performance.report st title).1 = st ∧
    ((Performance.report st title).1).length = st.length ∧
    (∀ j : Nat, ((Performance.report st title).1)[j]? = st[j]?) ∧
    (Performance.report (Performance.report st title).1 title).2
      = (Performance.report st title).2 :=
  ⟨rfl, rfl, fun _ => rfl, rfl⟩

/-- The number of nanosecond ticks in one unit of each resolution. -/
def unitScale : resolution → Int
  | .seconds => 1000000000
  | .milliseconds => 1000000
  | .microseconds => 1000
  | .nanoseconds => 1

/-- The duration cast is division by the unit's tick count, truncating
toward zero. -/
theorem durationCast_eq_tdiv (r : resolution) (d : Int) :
    durationCast r d = d.tdiv (unitScale r) := by
  cases r <;> simp [durationCast, unitScale]

/-- `resolutionOfInt` inverts the enumerator values. -/
theorem resolutionOfInt_toInt (r : resolution) :
    resolutionOfInt (resolution.toInt r) = some r := by
  cases r <;> rfl

/-- When the record's stored resolution is a genuine enumerator value, the
stored stop value is the duration cast of `now` minus the start instant,
narrowed into the `int` range. -/
theorem stopTime_of_res (st : List process) (now : Int) (i : Nat)
    (h : i < st.length) (r : resolution)
    (hres : (st.get ⟨i, h⟩).resolution = resolution.toInt r) :
    stopTime st now i h
      = wrap32 (durationCast r (now - (st.get ⟨i, h⟩).start_time)) := by
  unfold stopTime
  rw [hres, resolutionOfInt_toInt]

/-- Values already inside the 32-bit `int` range pass through the narrowing
unchanged. -/
theorem wrap32_eq_self (v : Int) (h1 : -2147483648 ≤ v) (h2 : v < 2147483648) :
    wrap32 v = v := by
  unfold wrap32
  omega

/-- The narrowed value always lies in the 32-bit `int` range. -/
theorem wrap32_mem_range (v : Int) :
    -2147483648 ≤ wrap32 v ∧ wrap32 v < 2147483648 := by
  unfold wrap32
  omega

/-- The duration cast never exceeds a non-negative duration. -/
theorem durationCast_le_self (r : resolution) (d : Int) (h : 0 ≤ d) :
    durationCast r d ≤ d := by
  rw [durationCast_eq_tdiv, Int.tdiv_eq_ediv h (by cases r <;> decide)]
  exact Int.ediv_le_self (unitScale r) h

/-- The duration cast is monotone in the duration (for durations starting
non-negative). -/
theorem durationCast_mono (r : resolution) (d1 d2 : Int)
    (h1 : 0 ≤ d1) (h12 : d1 ≤ d2) :
    durationCast r d1 ≤ durationCast r d2 := by
  cases r <;> simp only [durationCast]
  case nanoseconds => exact h12
  all_goals
    rw [Int.tdiv_eq_ediv h1 (by decide), Int.tdiv_eq_ediv (h1.trans h12) (by decide)]
  all_goals
    exact Int.ediv_le_ediv (by decide) h12

/-- The duration cast of a non-negative duration is non-negative. -/
theorem durationCast_nonneg (r : resolution) (d : Int) (h : 0 ≤ d) :
    0 ≤ durationCast r d := by
  rw [durationCast_eq_tdiv]
  refine Int.tdiv_nonneg h ?_
  cases r <;> decide

/-- When the stop happens no earlier than the record's start and less than
`2^31` nanoseconds after it, the duration count fits in `int`, so the
narrowing is the identity on it. -/
theorem stopTime_no_wrap (st : List process) (now : Int) (i : Nat)
    (h : i < st.length) (r : resolution)
    (hclk : (st.get ⟨i, h⟩).start_time ≤ now)
    (hspan : now - (st.get ⟨i, h⟩).start_time < 2147483648)
    (hres : resolutionOfInt (st.get ⟨i, h⟩).resolution = some r) :
    stopTime st now i h
      = durationCast r (now - (st.get ⟨i, h⟩).start_time) := by
  unfold stopTime
  simp only [hres]
  have h0 : 0 ≤ durationCast r (now - (st.get ⟨i, h⟩).start_time) :=
    durationCast_nonneg r _ (by omega)
  have hle : durationCast r (now - (st.get ⟨i, h⟩).start_time)
      ≤ now - (st.get ⟨i, h⟩).start_time :=
    durationCast_le_self r _ (by omega)
  exact wrap32_eq_self _ (by omega) (by omega)

/-- C10: a successful `stop` on a valid handle changes nothing but the
`time` field of the record at that handle: the record count, every other
record, and the target's name, resolution and start instant are unchanged. -/
theorem C10_stop_frame (st : List process) (now H : Int)
    (h0 : 0 ≤ H) (hH : H.toNat < st.length)
    (_hs : (Performance.stop st now H).2 = StopResult.success) :
    ((Performance.stop st now H).1).length = st.length ∧
    (∀ j : Nat, j ≠ H.toNat → ((Performance.stop st now H).1)[j]? = st[j]?) ∧
    ∃ p p' : process, st[H.toNat]? = some p ∧
      ((Performance.stop st now H).1)[H.toNat]? = some p' ∧
      p'.name = p.name ∧ p'.resolution = p.resolution ∧
      p'.start_time = p.start_time := by
  rw [stop_of_valid st now H h0 hH]
  refine ⟨List.length_set .., ?_, ?_⟩
  · intro j hj
    exact List.getElem?_set_ne (fun hEq => hj hEq.symm)
  · refine ⟨st.get ⟨H.toNat, hH⟩,
      { st.get ⟨H.toNat, hH⟩ with time := stopTime st now H.toNat hH },
      ?_, List.getElem?_set_self hH, rfl, rfl, rfl⟩
    simp [List.getElem?_eq_getElem hH]

/-- C10 witness: stopping the first of two records. -/
theorem C10_stop_frame_witness :
    ((Performance.stop
        (Performance.start (Performance.start [] 0 "load" resolution.milliseconds).1
          1 "parse" resolution.microseconds).1 5 0).1).length
      = ((Performance.start (Performance.start [] 0 "load" resolution.milliseconds).1
          1 "parse" resolution.microseconds).1).length ∧
    (∀ j : Nat, j ≠ (0 : Int).toNat →
      ((Performance.stop
        (Performance.start (Performance.start [] 0 "load" resolution.milliseconds).1
          1 "parse" resolution.microseconds).1 5 0).1)[j]?
        = ((Performance.start (Performance.start [] 0 "load" resolution.milliseconds).1
          1 "parse" resolution.microseconds).1)[j]?) ∧
    ∃ p p' : process,
      ((Performance.start (Performance.start [] 0 "load" resolution.milliseconds).1
          1 "parse" resolution.microseconds).1)[(0 : Int).toNat]? = some p ∧
      ((Performance.stop
        (Performance.start (Performance.start [] 0 "load" resolution.milliseconds).1
          1 "parse" resolution.microseconds).1 5 0).1)[(0 : Int).toNat]? = some p' ∧
      p'.name = p.name ∧ p'.resolution = p.resolution ∧
      p'.start_time = p.start_time :=
  C10_stop_frame
    (Performance.start (Performance.start [] 0 "load" resolution.milliseconds).1
      1 "parse" resolution.microseconds).1 5 0 (by decide) (by decide) (by decide)

/-- C9 counterexample: a successful nanosecond stop 4400000000 ns after the
start stores the wrapped `int` value 105032704, not the truncated quotient
4400000000 the claim prescribes. -/
theorem C9_counterexample_wrapped_value :
    (Performance.stop (Performance.start [] 0 "p" resolution.nanoseconds).1
        4400000000 0).2 = StopResult.success ∧
    (((Performance.stop (Performance.start [] 0 "p" resolution.nanoseconds).1
        4400000000 0).1)[0]?).map process.time = some 105032704 ∧
    ¬(((Performance.stop (Performance.start [] 0 "p" resolution.nanoseconds).1
        4400000000 0).1)[0]?).map process.time
      = some (((4400000000 : Int) - 0).tdiv (unitScale resolution.nanoseconds)) := by
  decide

/-- C9 amended: a successful `stop` of a valid handle stores `now` minus the
record's start instant, divided by the record's unit tick count with integer
division truncating toward zero (`Int.tdiv`) and then narrowed into the
32-bit `int` range; the stored value equals the plain truncated quotient
whenever the elapsed duration is non-negative and below `2^31` nanoseconds
(so the narrowing does not wrap). -/
theorem C9_amended_elapsed_narrowed (st : List process) (now H : Int)
    (r : resolution) (h0 : 0 ≤ H) (hH : H.toNat < st.length)
    (hres : (st.get ⟨H.toNat, hH⟩).resolution = resolution.toInt r)
    (_hs : (Performance.stop st now H).2 = StopResult.success) :
    (((Performance.stop st now H).1)[H.toNat]?).map process.time
      = some (wrap32
          ((now - (st.get ⟨H.toNat, hH⟩).start_time).tdiv (unitScale r))) ∧
    (0 ≤ now - (st.get ⟨H.toNat, hH⟩).start_time →
      now - (st.get ⟨H.toNat, hH⟩).start_time < 2147483648 →
      (((Performance.stop st now H).1)[H.toNat]?).map process.time
        = some ((now - (st.get ⟨H.toNat, hH⟩).start_time).tdiv (unitScale r))) := by
  have hmain : (((Performance.stop st now H).1)[H.toNat]?).map process.time
      = some (wrap32
          ((now - (st.get ⟨H.toNat, hH⟩).start_time).tdiv (unitScale r))) := by
    rw [stop_of_valid st now H h0 hH]
    rw [List.getElem?_set_self hH]
    rw [stopTime_of_res st now H.toNat hH r hres, durationCast_eq_tdiv]
    rfl
  refine ⟨hmain, fun hd0 hdlt => ?_⟩
  rw [hmain]
  have hnn : 0 ≤ (now - (st.get ⟨H.toNat, hH⟩).start_time).tdiv (unitScale r) :=
    Int.tdiv_nonneg hd0 (by cases r <;> decide)
  have hle : (now - (st.get ⟨H.toNat, hH⟩).start_time).tdiv (unitScale r)
      ≤ now - (st.get ⟨H.toNat, hH⟩).start_time := by
    have := durationCast_le_self r (now - (st.get ⟨H.toNat, hH⟩).start_time) hd0
    rw [durationCast_eq_tdiv] at this
    exact this
  rw [wrap32_eq_self _ (by omega) (by omega)]

/-- C9 amended witness: a record started at instant 1 with millisecond
resolution and stopped at instant 2500002: elapsed truncates to 2 ms, inside
the non-wrapping range. -/
theorem C9_amended_elapsed_narrowed_witness :
    (((Performance.stop (Performance.start [] 1 "load" resolution.milliseconds).1
        2500002 0).1)[(0 : Int).toNat]?).map process.time
      = some (wrap32 ((2500002 -
          ((Performance.start [] 1 "load" resolution.milliseconds).1.get
            ⟨(0 : Int).toNat, by decide⟩).start_time).tdiv
          (unitScale resolution.milliseconds))) ∧
    (0 ≤ 2500002 -
        ((Performance.start [] 1 "load" resolution.milliseconds).1.get
          ⟨(0 : Int).toNat, by decide⟩).start_time →
      2500002 -
        ((Performance.start [] 1 "load" resolution.milliseconds).1.get
          ⟨(0 : Int).toNat, by decide⟩).start_time < 2147483648 →
      (((Performance.stop (Performance.start [] 1 "load" resolution.milliseconds).1
          2500002 0).1)[(0 : Int).toNat]?).map process.time
        = some ((2500002 -
            ((Performance.start [] 1 "load" resolution.milliseconds).1.get
              ⟨(0 : Int).toNat, by decide⟩).start_time).tdiv
            (unitScale resolution.milliseconds))) :=
  C9_amended_elapsed_narrowed
    (Performance.start [] 1 "load" resolution.milliseconds).1 2500002 0
    resolution.milliseconds (by decide) (by decide) (by decide) (by decide)

/-- C4 amended: when `stop` fails on an out-of-range handle the registry is
unchanged; when it fails on a valid handle (negative computed elapsed) the
registry is changed exactly by overwriting the target record's `time` with
the computed value, which is at most the `-1` sentinel. -/
theorem C4_amended_failing_stop (st : List process) (now H : Int)
    (hfail : (Performance.stop st now H).2 = StopResult.invalidHandle) :
    (¬(0 ≤ H ∧ H.toNat < st.length) → (Performance.stop st now H).1 = st) ∧
    ((0 ≤ H ∧ H.toNat < st.length) →
      ∃ p : process, ∃ t : Int, st[H.toNat]? = some p ∧ t ≤ UNINITIALIZED ∧
        (Performance.stop st now H).1 = st.set H.toNat { p with time := t }) := by
  constructor
  · intro h
    rw [stop_of_not_valid st now H h]
  · intro h
    rw [stop_of_valid st now H h.1 h.2] at hfail ⊢
    refine ⟨st.get ⟨H.toNat, h.2⟩, stopTime st now H.toNat h.2,
      by simp [List.getElem?_eq_getElem h.2], ?_, rfl⟩
    by_cases hc : UNINITIALIZED < stopTime st now H.toNat h.2
    · rw [if_pos hc] at hfail
      exact absurd hfail (by simp)
    · omega

/-- C4 amended witness: the backwards-clock failure at a valid handle. -/
theorem C4_amended_failing_stop_witness :
    (¬((0 : Int) ≤ 0 ∧
        (0 : Int).toNat < ((Performance.start [] 10 "p" resolution.nanoseconds).1).length) →
      (Performance.stop (Performance.start [] 10 "p" resolution.nanoseconds).1 3 0).1
        = (Performance.start [] 10 "p" resolution.nanoseconds).1) ∧
    (((0 : Int) ≤ 0 ∧
        (0 : Int).toNat < ((Performance.start [] 10 "p" resolution.nanoseconds).1).length) →
      ∃ p : process, ∃ t : Int,
        ((Performance.start [] 10 "p" resolution.nanoseconds).1)[(0 : Int).toNat]? = some p ∧
        t ≤ UNINITIALIZED ∧
        (Performance.stop (Performance.start [] 10 "p" resolution.nanoseconds).1 3 0).1
          = ((Performance.start [] 10 "p" resolution.nanoseconds).1).set (0 : Int).toNat
              { p with time := t }) :=
  C4_amended_failing_stop (Performance.start [] 10 "p" resolution.nanoseconds).1 3 0 (by decide)

/-- C5 counterexample: a nanosecond record started at instant 0 is stopped
successfully at instant 2100000000 and again at instant 4400000000 under a
perfectly monotone clock; the second duration count wraps in the `int`
member to 105032704, so the second successful stop records a smaller
elapsed value than the first. -/
theorem C5_counterexample_wrapped_elapsed_decreases :
    (Performance.stop (Performance.start [] 0 "p" resolution.nanoseconds).1
        2100000000 0).2 = StopResult.success ∧
    (Performance.stop
        (Performance.stop (Performance.start [] 0 "p" resolution.nanoseconds).1
          2100000000 0).1 4400000000 0).2 = StopResult.success ∧
    (((Performance.stop (Performance.start [] 0 "p" resolution.nanoseconds).1
        2100000000 0).1)[0]?).map process.time = some 2100000000 ∧
    (((Performance.stop
        (Performance.stop (Performance.start [] 0 "p" resolution.nanoseconds).1
          2100000000 0).1 4400000000 0).1)[0]?).map process.time = some 105032704 ∧
    (105032704 : Int) < 2100000000 := by
  decide

/-- C5 amended: two successful stops of the same valid handle at instants
`T1 ≤ T2`, with a clock that never ran backward (the record's start instant
is at most `T1`) and with the second stop less than `2^31` nanoseconds after
the start instant (so the `int` narrowing does not wrap), record elapsed
values with the second at least the first; both measure from the same
unchanged start instant. -/
theorem C5_amended_monotonic_elapsed (st : List process) (T1 T2 H : Int)
    (h0 : 0 ≤ H) (hH : H.toNat < st.length)
    (hclock : (st.get ⟨H.toNat, hH⟩).start_time ≤ T1) (hT : T1 ≤ T2)
    (hspan : T2 - (st.get ⟨H.toNat, hH⟩).start_time < 2147483648)
    (_h1 : (Performance.stop st T1 H).2 = StopResult.success)
    (_h2 : (Performance.stop (Performance.stop st T1 H).1 T2 H).2 = StopResult.success) :
    ∃ p1 p2 : process,
      ((Performance.stop st T1 H).1)[H.toNat]? = some p1 ∧
      ((Performance.stop (Performance.stop st T1 H).1 T2 H).1)[H.toNat]? = some p2 ∧
      p1.time ≤ p2.time ∧
      p1.start_time = (st.get ⟨H.toNat, hH⟩).start_time ∧
      p2.start_time = p1.start_time := by
  have hH2 : H.toNat < ((Performance.stop st T1 H).1).length := by
    rw [stop_length]; exact hH
  have hst2 : (Performance.stop st T1 H).1
      = st.set H.toNat { st.get ⟨H.toNat, hH⟩ with time := stopTime st T1 H.toNat hH } :=
    congrArg Prod.fst (stop_of_valid st T1 H h0 hH)
  have hq : ((Performance.stop st T1 H).1)[H.toNat]?
      = some { st.get ⟨H.toNat, hH⟩ with time := stopTime st T1 H.toNat hH } := by
    rw [hst2]; exact List.getElem?_set_self hH
  have hget : ((Performance.stop st T1 H).1).get ⟨H.toNat, hH2⟩
      = { st.get ⟨H.toNat, hH⟩ with time := stopTime st T1 H.toNat hH } := by
    have hx := List.getElem?_eq_getElem hH2
    rw [hq] at hx
    exact (Option.some.inj hx).symm
  have hst3 : (Performance.stop (Performance.stop st T1 H).1 T2 H).1
      = ((Performance.stop st T1 H).1).set H.toNat
          { ((Performance.stop st T1 H).1).get ⟨H.toNat, hH2⟩ with
            time := stopTime (Performance.stop st T1 H).1 T2 H.toNat hH2 } :=
    congrArg Prod.fst (stop_of_valid _ T2 H h0 hH2)
  have hq3 : ((Performance.stop (Performance.stop st T1 H).1 T2 H).1)[H.toNat]?
      = some { ((Performance.stop st T1 H).1).get ⟨H.toNat, hH2⟩ with
          time := stopTime (Performance.stop st T1 H).1 T2 H.toNat hH2 } := by
    rw [hst3]; exact List.getElem?_set_self hH2
  refine ⟨_, _, hq, hq3, ?_, rfl, ?_⟩
  · show stopTime st T1 H.toNat hH
      ≤ stopTime (Performance.stop st T1 H).1 T2 H.toNat hH2
    rcases hres : resolutionOfInt (st.get ⟨H.toNat, hH⟩).resolution with _ | r
    · have hres2 : resolutionOfInt
          (((Performance.stop st T1 H).1).get ⟨H.toNat, hH2⟩).resolution = none := by
        rw [hget]
        exact hres
      have ht2 : stopTime (Performance.stop st T1 H).1 T2 H.toNat hH2
          = (((Performance.stop st T1 H).1).get ⟨H.toNat, hH2⟩).time := by
        unfold stopTime
        simp only [hres2]
      rw [ht2, hget]
    · have hres2 : resolutionOfInt
          (((Performance.stop st T1 H).1).get ⟨H.toNat, hH2⟩).resolution = some r := by
        rw [hget]
        exact hres
      have hclk2 : (((Performance.stop st T1 H).1).get ⟨H.toNat, hH2⟩).start_time
          ≤ T2 := by
        rw [hget]
        exact le_trans hclock hT
      have hspan2 : T2 - (((Performance.stop st T1 H).1).get ⟨H.toNat, hH2⟩).start_time
          < 2147483648 := by
        rw [hget]
        exact hspan
      have ht1 := stopTime_no_wrap st T1 H.toNat hH r hclock (by omega) hres
      have ht2 := stopTime_no_wrap (Performance.stop st T1 H).1 T2 H.toNat hH2 r
        hclk2 hspan2 hres2
      rw [ht1, ht2, hget]
      show durationCast r (T1 - (st.get ⟨H.toNat, hH⟩).start_time)
        ≤ durationCast r (T2 - (st.get ⟨H.toNat, hH⟩).start_time)
      exact durationCast_mono r _ _ (by omega) (by omega)
  · show ({ ((Performance.stop st T1 H).1).get ⟨H.toNat, hH2⟩ with
        time := stopTime (Performance.stop st T1 H).1 T2 H.toNat hH2 } : process).start_time
      = ({ st.get ⟨H.toNat, hH⟩ with
        time := stopTime st T1 H.toNat hH } : process).start_time
    rw [hget]

/-- An index holding a value is in range. -/
theorem lt_of_getElem?_some {α : Type} {l : List α} {n : Nat} {a : α}
    (h : l[n]? = some a) : n < l.length := by
  by_contra hn
  rw [List.getElem?_eq_none (by omega)] at h
  cases h

/-- A value read by index is a member of the list. -/
theorem mem_of_getElem?_some {α : Type} {l : List α} {n : Nat} {a : α}
    (h : l[n]? = some a) : a ∈ l := by
  obtain ⟨hlt, hEq⟩ := List.getElem?_eq_some.mp h
  exact hEq ▸ List.getElem_mem hlt

/-- Every digit character produced by `digitChar` on a digit differs from
the letter opening the running-placeholder text. -/
theorem digitChar_ne_S : ∀ d : Nat, d < 10 → Performance.digitChar d ≠ 'S' := by
  decide

/-- `natDigitsRev` emits only digit characters. -/
theorem natDigitsRev_mem (n : Nat) :
    ∀ c ∈ Performance.natDigitsRev n,
      ∃ d, d < 10 ∧ c = Performance.digitChar d := by
  induction n using Nat.strong_induction_on with
  | _ n ih =>
    intro c hc
    unfold Performance.natDigitsRev at hc
    by_cases h : n < 10
    · rw [dif_pos h] at hc
      rw [List.mem_singleton] at hc
      exact ⟨n, h, hc⟩
    · rw [dif_neg h] at hc
      rcases List.mem_cons.mp hc with hc | hc
      · exact ⟨n % 10, Nat.mod_lt n (by omega), hc⟩
      · exact ih (n / 10) (Nat.div_lt_self (by omega) (by omega)) c hc

/-- `groupRev` only adds separator characters. -/
theorem groupRev_mem (l : List Char) :
    ∀ (k : Nat) (c : Char), c ∈ Performance.groupRev k l → c = ',' ∨ c ∈ l := by
  induction l with
  | nil =>
    intro k c hc
    simp [Performance.groupRev] at hc
  | cons x xs ih =>
    intro k c hc
    simp only [Performance.groupRev] at hc
    split at hc
    · rcases List.mem_cons.mp hc with hc | hc
      · exact Or.inl hc
      · rcases List.mem_cons.mp hc with hc | hc
        · exact Or.inr (List.mem_cons.mpr (Or.inl hc))
        · rcases ih (k + 1) c hc with hc | hc
          · exact Or.inl hc
          · exact Or.inr (List.mem_cons.mpr (Or.inr hc))
    · rcases List.mem_cons.mp hc with hc | hc
      · exact Or.inr (List.mem_cons.mpr (Or.inl hc))
      · rcases ih (k + 1) c hc with hc | hc
        · exact Or.inl hc
        · exact Or.inr (List.mem_cons.mpr (Or.inr hc))

/-- Every character of the formatted integer is a sign, a separator or a
digit. -/
theorem format_integer_mem (v : Int) (c : Char)
    (hc : c ∈ (Performance.format_integer_thousand_separator v).data) :
    c = '-' ∨ c = ',' ∨ ∃ d, d < 10 ∧ c = Performance.digitChar d := by
  unfold Performance.format_integer_thousand_separator at hc
  have hdig : ∀ x : Char,
      x ∈ (Performance.groupRev 0 (Performance.natDigitsRev v.natAbs)).reverse →
      x = ',' ∨ ∃ d, d < 10 ∧ x = Performance.digitChar d := by
    intro x hx
    rw [List.mem_reverse] at hx
    rcases groupRev_mem (Performance.natDigitsRev v.natAbs) 0 x hx with hx | hx
    · exact Or.inl hx
    · exact Or.inr (natDigitsRev_mem v.natAbs x hx)
  by_cases hv : v < 0
  · rw [if_pos hv] at hc
    rcases List.mem_cons.mp hc with hc | hc
    · exact Or.inl hc
    · rcases hdig c hc with hc | hc
      · exact Or.inr (Or.inl hc)
      · exact Or.inr (Or.inr hc)
  · rw [if_neg hv] at hc
    rcases hdig c hc with hc | hc
    · exact Or.inr (Or.inl hc)
    · exact Or.inr (Or.inr hc)

/-- The formatted integer is never the running placeholder. -/
theorem format_integer_ne_still_running (v : Int) :
    Performance.format_integer_thousand_separator v ≠ "STILL RUNNING" := by
  intro h
  have hS : 'S' ∈ (Performance.format_integer_thousand_separator v).data := by
    rw [h]
    decide
  rcases format_integer_mem v 'S' hS with h1 | h1 | ⟨d, hd, h1⟩
  · exact absurd h1 (by decide)
  · exact absurd h1 (by decide)
  · exact digitChar_ne_S d hd h1.symm

/-- The runtime column of a record reads the running placeholder exactly when
the record's `time` still holds the `-1` sentinel. -/
theorem runtime_of_eq_still_running (p : process) :
    Performance.runtime_of p = "STILL RUNNING" ↔ p.time = -1 := by
  unfold Performance.runtime_of
  by_cases h : p.time = -1
  · simp [h]
  · simp only [if_neg h]
    exact ⟨fun hEq => absurd hEq (format_integer_ne_still_running p.time),
      fun hEq => absurd hEq h⟩

/-- A clock bound grows with the bound. -/
theorem clockOK_mono {m t : Int} {st : List process} (h : clockOK m st)
    (hmt : m ≤ t) : clockOK t st :=
  fun p hp => le_trans (h p hp) hmt

/-- `start` at instant `t` preserves the clock bound `t`. -/
theorem clockOK_start {m t : Int} {st : List process} (h : clockOK m st)
    (hmt : m ≤ t) (name : String) (res : resolution) :
    clockOK t (Performance.start st t name res).1 := by
  intro p hp
  rcases List.mem_append.mp hp with hp | hp
  · exact le_trans (h p hp) hmt
  · rw [List.mem_singleton] at hp
    subst hp
    exact le_rfl

/-- `stop` never changes any start instant, so it preserves clock bounds. -/
theorem clockOK_stop {m : Int} {st : List process} (h : clockOK m st)
    (now pid : Int) : clockOK m (Performance.stop st now pid).1 := by
  by_cases hv : 0 ≤ pid ∧ pid.toNat < st.length
  · rw [stop_of_valid st now pid hv.1 hv.2]
    intro p hp
    rcases List.mem_or_eq_of_mem_set hp with hp | hp
    · exact h p hp
    · subst hp
      show (st.get ⟨pid.toNat, hv.2⟩).start_time ≤ m
      exact h _ (List.get_mem st pid.toNat hv.2)
  · rw [stop_of_not_valid st now pid hv]
    exact h

/-- `start` at an instant at least `b` preserves the era lower bound. -/
theorem clockLB_start {b t : Int} {st : List process} (h : clockLB b st)
    (hbt : b ≤ t) (name : String) (res : resolution) :
    clockLB b (Performance.start st t name res).1 := by
  intro p hp
  rcases List.mem_append.mp hp with hp | hp
  · exact h p hp
  · rw [List.mem_singleton] at hp
    subst hp
    exact hbt

/-- `stop` never changes any start instant, so it preserves the era lower
bound. -/
theorem clockLB_stop {b : Int} {st : List process} (h : clockLB b st)
    (now pid : Int) : clockLB b (Performance.stop st now pid).1 := by
  by_cases hv : 0 ≤ pid ∧ pid.toNat < st.length
  · rw [stop_of_valid st now pid hv.1 hv.2]
    intro p hp
    rcases List.mem_or_eq_of_mem_set hp with hp | hp
    · exact h p hp
    · subst hp
      show b ≤ (st.get ⟨pid.toNat, hv.2⟩).start_time
      exact h _ (List.get_mem st pid.toNat hv.2)
  · rw [stop_of_not_valid st now pid hv]
    exact h

/-- `start` leaves every existing index unchanged. -/
theorem start_getElem?_left (st : List process) (now : Int) (name : String)
    (res : resolution) (H : Nat) (hH : H < st.length) :
    ((Performance.start st now name res).1)[H]? = st[H]? :=
  List.getElem?_append_left hH

/-- `stop` on another handle leaves index `H` unchanged. -/
theorem stop_getElem?_ne (st : List process) (now pid : Int) (H : Nat)
    (hne : pid ≠ (H : Int)) :
    ((Performance.stop st now pid).1)[H]? = st[H]? := by
  by_cases hv : 0 ≤ pid ∧ pid.toNat < st.length
  · rw [stop_of_valid st now pid hv.1 hv.2]
    exact List.getElem?_set_ne (by omega)
  · rw [stop_of_not_valid st now pid hv]

/-- The record an in-range `stop` leaves at its own handle. -/
theorem stop_getElem?_self (st : List process) (now : Int) (H : Nat)
    (hH : H < st.length) :
    ((Performance.stop st now (H : Int)).1)[H]?
      = some { st.get ⟨H, hH⟩ with time := stopTime st now H hH } := by
  have h0 : 0 ≤ (H : Int) := Int.natCast_nonneg H
  have hlt : ((H : Int)).toNat < st.length := by omega
  rw [stop_of_valid st now (H : Int) h0 hlt]
  exact List.getElem?_set_self hH

/-- The outcome of an in-range `stop`, phrased with a `Nat` handle. -/
theorem stop_snd_natCast (st : List process) (now : Int) (H : Nat)
    (hH : H < st.length) :
    (Performance.stop st now (H : Int)).2
      = if UNINITIALIZED < stopTime st now H hH then StopResult.success
        else StopResult.invalidHandle := by
  have h0 : 0 ≤ (H : Int) := Int.natCast_nonneg H
  have hlt : ((H : Int)).toNat < st.length := by omega
  exact congrArg Prod.snd (stop_of_valid st now (H : Int) h0 hlt)

/-- `stopTime` only depends on the record at the index. -/
theorem stopTime_eq_of_get (st : List process) (now : Int) (i : Nat)
    (h : i < st.length) (p : process) (hget : st.get ⟨i, h⟩ = p) :
    stopTime st now i h
      = match resolutionOfInt p.resolution with
        | some r => wrap32 (durationCast r (now - p.start_time))
        | none => p.time := by
  unfold stopTime
  rw [hget]

/-- `stopTime` is non-negative when the clock did not run backward, the stop
comes less than `2^31` nanoseconds after the start, and the record's
previous value was non-negative. -/
theorem stopTime_nonneg (st : List process) (now : Int) (i : Nat)
    (h : i < st.length) (hclk : (st.get ⟨i, h⟩).start_time ≤ now)
    (hspan : now - (st.get ⟨i, h⟩).start_time < 2147483648)
    (ht : 0 ≤ (st.get ⟨i, h⟩).time) : 0 ≤ stopTime st now i h := by
  rcases hres : resolutionOfInt (st.get ⟨i, h⟩).resolution with _ | r
  · unfold stopTime
    simp only [hres]
    exact ht
  · rw [stopTime_no_wrap st now i h r hclk hspan hres]
    exact durationCast_nonneg r _ (by omega)

/-- A non-reset head of a reset-free sequence. -/
theorem noReset_cons {op : Op} {ops : List Op} (h : noReset (op :: ops) = true) :
    op ≠ Op.resetOp ∧ noReset ops = true := by
  cases op with
  | resetOp => simp [noReset] at h
  | startOp now name res => exact ⟨fun hEq => Op.noConfusion hEq, h⟩
  | stopOp now pid => exact ⟨fun hEq => Op.noConfusion hEq, h⟩
  | reportOp title => exact ⟨fun hEq => Op.noConfusion hEq, h⟩

/-- Along a reset-free, clock-monotone call sequence confined to an era
shorter than `2^31` nanoseconds (so the `int` narrowing never wraps), a
record whose elapsed value is non-negative keeps a non-negative elapsed
value. -/
theorem time_nonneg_runOps :
    ∀ (ops : List Op) (st : List process) (b m M : Int) (H : Nat) (p : process),
      b ≤ m → M ≤ b + 2147483647 →
      noReset ops = true → nowsLB m ops = true → nowsUB M ops = true →
      clockOK m st → clockLB b st →
      st[H]? = some p → 0 ≤ p.time →
      ∀ p' : process, (runOps st ops)[H]? = some p' → 0 ≤ p'.time := by
  intro ops
  induction ops with
  | nil =>
    intro st b m M H p _ _ _ _ _ _ _ hp hp0 p' hp'
    rw [runOps, hp] at hp'
    cases hp'
    exact hp0
  | cons op ops ih =>
    intro st b m M H p hbm hbM hR hN hU hC hL hp hp0 p' hp'
    obtain ⟨hop, hR'⟩ := noReset_cons hR
    rw [runOps] at hp'
    cases op with
    | startOp t name res =>
      simp only [nowsLB, nowsUB, opNow] at hN hU
      rw [Bool.and_eq_true] at hN hU
      have hmt : m ≤ t := of_decide_eq_true hN.1
      have htM : t ≤ M := of_decide_eq_true hU.1
      refine ih ((Performance.start st t name res).1) b t M H p
        (le_trans hbm hmt) hbM hR' hN.2 hU.2
        (clockOK_start hC hmt name res)
        (clockLB_start hL (le_trans hbm hmt) name res) ?_ hp0 p' hp'
      rw [start_getElem?_left st t name res H (lt_of_getElem?_some hp)]
      exact hp
    | stopOp t pid =>
      simp only [nowsLB, nowsUB, opNow] at hN hU
      rw [Bool.and_eq_true] at hN hU
      have hmt : m ≤ t := of_decide_eq_true hN.1
      have htM : t ≤ M := of_decide_eq_true hU.1
      have hC' : clockOK t ((Performance.stop st t pid).1) :=
        clockOK_stop (clockOK_mono hC hmt) t pid
      have hL' : clockLB b ((Performance.stop st t pid).1) :=
        clockLB_stop hL t pid
      by_cases hpe : pid = (H : Int)
      · subst hpe
        have hH : H < st.length := lt_of_getElem?_some hp
        have hpget : st.get ⟨H, hH⟩ = p := by
          have hx := List.getElem?_eq_getElem hH
          rw [hp] at hx
          exact (Option.some.inj hx).symm
        have hclk : (st.get ⟨H, hH⟩).start_time ≤ t := by
          rw [hpget]
          exact le_trans (hC p (mem_of_getElem?_some hp)) hmt
        have hlb : b ≤ (st.get ⟨H, hH⟩).start_time := by
          rw [hpget]
          exact hL p (mem_of_getElem?_some hp)
        have hspan : t - (st.get ⟨H, hH⟩).start_time < 2147483648 := by omega
        have hnn : 0 ≤ stopTime st t H hH :=
          stopTime_nonneg st t H hH hclk hspan (by rw [hpget]; exact hp0)
        exact ih ((Performance.stop st t (H : Int)).1) b t M H
          { st.get ⟨H, hH⟩ with time := stopTime st t H hH }
          (le_trans hbm hmt) hbM hR' hN.2 hU.2 hC' hL'
          (stop_getElem?_self st t H hH) hnn p' hp'
      · refine ih ((Performance.stop st t pid).1) b t M H p
          (le_trans hbm hmt) hbM hR' hN.2 hU.2 hC' hL' ?_ hp0 p' hp'
        rw [stop_getElem?_ne st t pid H hpe]
        exact hp
    | reportOp title =>
      exact ih st b m M H p hbm hbM hR' hN hU hC hL hp hp0 p' hp'
    | resetOp => exact absurd rfl hop

/-- Along a reset-free, clock-monotone call sequence confined to an era
shorter than `2^31` nanoseconds (so the `int` narrowing never wraps), a
record created with the unset sentinel keeps an elapsed value that is unset
or non-negative, and it is unset exactly when no successful `stop` on its
handle has occurred. -/
theorem time_unset_iff_runOps :
    ∀ (ops : List Op) (st : List process) (b m M : Int) (H : Nat) (p : process),
      b ≤ m → M ≤ b + 2147483647 →
      noReset ops = true → nowsLB m ops = true → nowsUB M ops = true →
      clockOK m st → clockLB b st →
      st[H]? = some p → p.time = -1 →
      ∀ p' : process, (runOps st ops)[H]? = some p' →
        (p'.time = -1 ∨ 0 ≤ p'.time) ∧
        (p'.time = -1 ↔ stopsOn st H ops = false) := by
  intro ops
  induction ops with
  | nil =>
    intro st b m M H p _ _ _ _ _ _ _ hp ht p' hp'
    rw [runOps, hp] at hp'
    cases hp'
    exact ⟨Or.inl ht, by simp [stopsOn, ht]⟩
  | cons op ops ih =>
    intro st b m M H p hbm hbM hR hN hU hC hL hp ht p' hp'
    obtain ⟨hop, hR'⟩ := noReset_cons hR
    rw [runOps] at hp'
    cases op with
    | startOp t name res =>
      simp only [nowsLB, nowsUB, opNow] at hN hU
      rw [Bool.and_eq_true] at hN hU
      have hmt : m ≤ t := of_decide_eq_true hN.1
      have hp2 : ((Performance.start st t name res).1)[H]? = some p := by
        rw [start_getElem?_left st t name res H (lt_of_getElem?_some hp)]
        exact hp
      have hmain := ih ((Performance.start st t name res).1) b t M H p
        (le_trans hbm hmt) hbM hR' hN.2 hU.2
        (clockOK_start hC hmt name res)
        (clockLB_start hL (le_trans hbm hmt) name res) hp2 ht p' hp'
      refine ⟨hmain.1, ?_⟩
      rw [hmain.2]
      exact Iff.rfl
    | stopOp t pid =>
      simp only [nowsLB, nowsUB, opNow] at hN hU
      rw [Bool.and_eq_true] at hN hU
      have hmt : m ≤ t := of_decide_eq_true hN.1
      have htM : t ≤ M := of_decide_eq_true hU.1
      by_cases hpe : pid = (H : Int)
      · subst hpe
        have hH : H < st.length := lt_of_getElem?_some hp
        have hpget : st.get ⟨H, hH⟩ = p := by
          have hx := List.getElem?_eq_getElem hH
          rw [hp] at hx
          exact (Option.some.inj hx).symm
        have hclk : (st.get ⟨H, hH⟩).start_time ≤ t := by
          rw [hpget]
          exact le_trans (hC p (mem_of_getElem?_some hp)) hmt
        have hlb : b ≤ (st.get ⟨H, hH⟩).start_time := by
          rw [hpget]
          exact hL p (mem_of_getElem?_some hp)
        have hspan : t - (st.get ⟨H, hH⟩).start_time < 2147483648 := by omega
        have hC' : clockOK t ((Performance.stop st t (H : Int)).1) :=
          clockOK_stop (clockOK_mono hC hmt) t (H : Int)
        have hL' : clockLB b ((Performance.stop st t (H : Int)).1) :=
          clockLB_stop hL t (H : Int)
        have hq := stop_getElem?_self st t H hH
        rcases hres : resolutionOfInt (st.get ⟨H, hH⟩).resolution with _ | r
        · have htv : stopTime st t H hH = p.time := by
            unfold stopTime
            simp only [hres]
            rw [hpget]
          have hsnd : (Performance.stop st t (H : Int)).2
              = StopResult.invalidHandle := by
            rw [stop_snd_natCast st t H hH, htv, ht]
            rw [if_neg (by decide)]
          have hsucc : isSuccessfulStopOn st H (Op.stopOp t (H : Int)) = false := by
            simp [isSuccessfulStopOn, hsnd]
          have hmain := ih ((Performance.stop st t (H : Int)).1) b t M H
            { st.get ⟨H, hH⟩ with time := stopTime st t H hH }
            (le_trans hbm hmt) hbM hR' hN.2 hU.2 hC' hL' hq
            (by show stopTime st t H hH = -1; rw [htv, ht]) p' hp'
          refine ⟨hmain.1, ?_⟩
          rw [hmain.2]
          simp only [stopsOn, hsucc, Bool.false_or, runOp]
        · have htv : stopTime st t H hH
              = durationCast r (t - (st.get ⟨H, hH⟩).start_time) :=
            stopTime_no_wrap st t H hH r hclk hspan hres
          have hnn : 0 ≤ stopTime st t H hH := by
            rw [htv]
            exact durationCast_nonneg r _ (by omega)
          have hsnd : (Performance.stop st t (H : Int)).2 = StopResult.success := by
            rw [stop_snd_natCast st t H hH]
            rw [if_pos (show UNINITIALIZED < stopTime st t H hH by
              unfold UNINITIALIZED
              omega)]
          have hsucc : isSuccessfulStopOn st H (Op.stopOp t (H : Int)) = true := by
            simp [isSuccessfulStopOn, hsnd]
          have hnn' := time_nonneg_runOps ops ((Performance.stop st t (H : Int)).1)
            b t M H { st.get ⟨H, hH⟩ with time := stopTime st t H hH }
            (le_trans hbm hmt) hbM hR' hN.2 hU.2 hC' hL' hq hnn p' hp'
          refine ⟨Or.inr hnn', ?_, ?_⟩
          · intro hpt
            exact absurd hpt (by omega)
          · intro hfalse
            simp only [stopsOn, hsucc, Bool.true_or] at hfalse
            cases hfalse
      · have hC' : clockOK t ((Performance.stop st t pid).1) :=
          clockOK_stop (clockOK_mono hC hmt) t pid
        have hL' : clockLB b ((Performance.stop st t pid).1) :=
          clockLB_stop hL t pid
        have hp2 : ((Performance.stop st t pid).1)[H]? = some p := by
          rw [stop_getElem?_ne st t pid H hpe]
          exact hp
        have hmain := ih ((Performance.stop st t pid).1) b t M H p
          (le_trans hbm hmt) hbM hR' hN.2 hU.2 hC' hL' hp2 ht p' hp'
        refine ⟨hmain.1, ?_⟩
        rw [hmain.2]
        have hsucc : isSuccessfulStopOn st H (Op.stopOp t pid) = false := by
          simp [isSuccessfulStopOn, hpe]
        simp only [stopsOn, hsucc, Bool.false_or, runOp]
    | reportOp title =>
      have hmain := ih st b m M H p hbm hbM hR' hN hU hC hL hp ht p' hp'
      refine ⟨hmain.1, ?_⟩
      rw [hmain.2]
      exact Iff.rfl
    | resetOp => exact absurd rfl hop

/-- C3 amended: along any reset-free call sequence under a monotone clock
confined to an era shorter than `2^31` nanoseconds (so the `int` narrowing
never wraps), a record created with the unset sentinel always holds either
the sentinel or a non-negative elapsed value (never any other negative
value), and it holds the sentinel exactly as long as no `stop` call on its
handle has succeeded — so elapsed moves from unset only to non-negative
values, and never back, though later successful stops may overwrite it. -/
theorem C3_amended_elapsed_transitions (ops : List Op) (st : List process)
    (b m M : Int) (H : Nat) (p p' : process)
    (hbm : b ≤ m) (hbM : M ≤ b + 2147483647)
    (hR : noReset ops = true) (hN : nowsLB m ops = true)
    (hU : nowsUB M ops = true) (hC : clockOK m st) (hL : clockLB b st)
    (hp : st[H]? = some p) (ht : p.time = UNINITIALIZED)
    (hp' : (runOps st ops)[H]? = some p') :
    (p'.time = UNINITIALIZED ∨ 0 ≤ p'.time) ∧
    (p'.time = UNINITIALIZED ↔ stopsOn st H ops = false) :=
  time_unset_iff_runOps ops st b m M H p hbm hbM hR hN hU hC hL hp ht p' hp'

/-- C3 amended witness: a single successful stop at instant 5 on a record
created unset at instant 0, inside a 5-nanosecond era. -/
theorem C3_amended_elapsed_transitions_witness :
    (({ name := "p", resolution := 4, time := 5, start_time := 0 } : process).time
        = UNINITIALIZED ∨
      0 ≤ ({ name := "p", resolution := 4, time := 5, start_time := 0 } : process).time) ∧
    (({ name := "p", resolution := 4, time := 5, start_time := 0 } : process).time
        = UNINITIALIZED ↔
      stopsOn [{ name := "p", resolution := 4, time := -1, start_time := 0 }] 0
        [Op.stopOp 5 0] = false) :=
  C3_amended_elapsed_transitions [Op.stopOp 5 0]
    [{ name := "p", resolution := 4, time := -1, start_time := 0 }] 0 0 5 0
    { name := "p", resolution := 4, time := -1, start_time := 0 }
    { name := "p", resolution := 4, time := 5, start_time := 0 }
    (by decide) (by decide) (by decide) (by decide) (by decide) (by decide)
    (by decide) (by decide) (by decide) (by decide)

/-- C6 counterexample: a nanosecond record started at instant 0; under a
perfectly monotone clock with no reset, a `stop` at instant 2147483648
narrows the duration count to -2147483648, fails, and leaves the record's
runtime column showing a formatted number — the line stops reading
"STILL RUNNING" although no `stop` on the handle ever succeeded. -/
theorem C6_counterexample_wrapped_line :
    noReset [Op.stopOp 2147483648 0] = true ∧
    nowsLB 0 [Op.stopOp 2147483648 0] = true ∧
    stopsOn [{ name := "p", resolution := 4, time := -1, start_time := 0 }] 0
        [Op.stopOp 2147483648 0] = false ∧
    (runOps [{ name := "p", resolution := 4, time := -1, start_time := 0 }]
        [Op.stopOp 2147483648 0])[0]?
      = some { name := "p", resolution := 4, time := -2147483648, start_time := 0 } ∧
    Performance.runtime_of
        { name := "p", resolution := 4, time := -2147483648, start_time := 0 }
      ≠ "STILL RUNNING" := by
  refine ⟨by decide, by decide, by decide, by decide, ?_⟩
  intro hEq
  have hx := (runtime_of_eq_still_running
    { name := "p", resolution := 4, time := -2147483648, start_time := 0 }).mp hEq
  exact absurd hx (by decide)

/-- C6 amended: along any reset-free call sequence under a monotone clock
confined to an era shorter than `2^31` nanoseconds (so the `int` narrowing
never wraps), a record's runtime column in the report reads "STILL RUNNING"
exactly as long as no `stop` call on its handle has succeeded — so it reads
so in every report produced before the first successful stop and in no
report produced afterward. -/
theorem C6_amended_still_running_iff (ops : List Op) (st : List process)
    (b m M : Int) (H : Nat) (p p' : process)
    (hbm : b ≤ m) (hbM : M ≤ b + 2147483647)
    (hR : noReset ops = true) (hN : nowsLB m ops = true)
    (hU : nowsUB M ops = true) (hC : clockOK m st) (hL : clockLB b st)
    (hp : st[H]? = some p) (ht : p.time = UNINITIALIZED)
    (hp' : (runOps st ops)[H]? = some p') :
    Performance.runtime_of p' = "STILL RUNNING" ↔ stopsOn st H ops = false := by
  rw [runtime_of_eq_still_running p']
  exact (time_unset_iff_runOps ops st b m M H p hbm hbM hR hN hU hC hL hp ht p' hp').2

/-- C6 amended witness: the record stopped successfully at instant 5 no
longer reports "STILL RUNNING". -/
theorem C6_amended_still_running_iff_witness :
    Performance.runtime_of
        { name := "p", resolution := 4, time := 5, start_time := 0 }
      = "STILL RUNNING" ↔
    stopsOn [{ name := "p", resolution := 4, time := -1, start_time := 0 }] 0
      [Op.stopOp 5 0] = false :=
  C6_amended_still_running_iff [Op.stopOp 5 0]
    [{ name := "p", resolution := 4, time := -1, start_time := 0 }] 0 0 5 0
    { name := "p", resolution := 4, time := -1, start_time := 0 }
    { name := "p", resolution := 4, time := 5, start_time := 0 }
    (by decide) (by decide) (by decide) (by decide) (by decide) (by decide)
    (by decide) (by decide) (by decide) (by decide)
/-- C5 amended witness: one record started at 0 (milliseconds), stopped at
1500000 (elapsed 1 ms) and again at 2500000 (elapsed 2 ms); both stops fall
well inside the `2^31`-nanosecond window. -/
theorem C5_amended_monotonic_elapsed_witness :
    ∃ p1 p2 : process,
      ((Performance.stop (Performance.start [] 0 "p" resolution.milliseconds).1
          1500000 0).1)[(0 : Int).toNat]? = some p1 ∧
      ((Performance.stop
          (Performance.stop (Performance.start [] 0 "p" resolution.milliseconds).1
            1500000 0).1 2500000 0).1)[(0 : Int).toNat]? = some p2 ∧
      p1.time ≤ p2.time ∧
      p1.start_time = ((Performance.start [] 0 "p" resolution.milliseconds).1.get
          ⟨(0 : Int).toNat, by decide⟩).start_time ∧
      p2.start_time = p1.start_time :=
  C5_amended_monotonic_elapsed (Performance.start [] 0 "p" resolution.milliseconds).1
    1500000 2500000 0 (by decide) (by decide) (by decide) (by decide)
    (by decide) (by decide) (by decide)

end CppPerformanceMonitor
